import Mathlib

/-!
Verification development for the Backgammon rules engine of this repository
(`src/game.rs`, with the dice-queue update from `src/events.rs` /
`src/main.rs`).

Modelling conventions:
* `points : [i32; 24]` is modelled as `Fin 24 → Int`; `bar : [i32; 2]` as
  `Fin 2 → Int`.
* Rust array indexing with a `usize` taken from user input panics when the
  index is out of bounds.  Reads and writes at `Nat` indices therefore go
  through `Option`: `none` models a panic.  Functions whose indices are
  statically below 24 (the fixed loops in `is_player_home_complete`,
  `get_points_for_color`, `is_over`, `get_winner`) are total.
* `make_move` takes `&mut self` and returns `Result<(), String>` in Rust; it
  is modelled as returning the pair of the `Result` and the post-state of the
  board, with the original board returned unchanged on the error path,
  mirroring the early `return Err` before any mutation.
-/

inductive Color where
  | White
  | Black
deriving DecidableEq

def Color.opposite : Color → Color
  | Color.White => Color.Black
  | Color.Black => Color.White

/-- Sign-to-owner decoding used by `Board::get_point_color`:
`0 ↦ None`, positive ↦ `White`, negative ↦ `Black`. -/
def colorOfVal (v : Int) : Option Color :=
  if v = 0 then none
  else if v > 0 then some Color.White
  else some Color.Black

structure Board where
  points : Fin 24 → Int
  bar : Fin 2 → Int

/-- Rust `self.points[point]` for a runtime `usize` index: panics (`none`)
when the index is at or past 24. -/
def Board.read (b : Board) (point : Nat) : Option Int :=
  if h : point < 24 then some (b.points ⟨point, h⟩) else none

/-- Rust `self.points[point] = v` for a runtime index; `none` models the
panic on an out-of-bounds index. -/
def Board.write (b : Board) (point : Nat) (v : Int) : Option Board :=
  if h : point < 24 then
    some { b with points := Function.update b.points ⟨point, h⟩ v }
  else none

/-- Model of `Board::get_point_color`. -/
def Board.get_point_color (b : Board) (point : Nat) : Option (Option Color) :=
  (b.read point).map colorOfVal

/-- Model of `Board::get_point_count` (`unsigned_abs`). -/
def Board.get_point_count (b : Board) (point : Nat) : Option Nat :=
  (b.read point).map Int.natAbs

/-- Model of `Board::direction`. -/
def Board.direction (_b : Board) (player : Color) : Int :=
  if player = Color.White then 1 else -1

/-- Model of `Board::opposite_bar_index`: the bar slot of `color`'s opponent. -/
def Board.opposite_bar_index (_b : Board) (color : Color) : Fin 2 :=
  match color with
  | Color.White => 1
  | Color.Black => 0

/-- Model of `Board::can_move_piece`.  The checks appear in source order; note that
the reads of `points[to_point]` happen before the `to_point >= 24` range
test, so a destination index at or past 24 panics (`none`) whenever the
origin checks pass. -/
def Board.can_move_piece (b : Board) (player : Color) (from_point to_point : Nat) :
    Option Bool :=
  (b.get_point_count from_point).bind fun from_count =>
    if from_count = 0 then some false else
    (b.get_point_color from_point).bind fun from_color =>
      if from_color ≠ some player then some false else
      (b.get_point_color to_point).bind fun to_point_color =>
        (b.get_point_count to_point).bind fun to_point_count =>
          if to_point_color = some player.opposite ∧ to_point_count > 1 then some false else
          if to_point ≥ 24 ∨ to_point = 0 ∨ to_point = 23 then some false else
          if to_point_color = some player.opposite ∧ to_point < from_point ∧
              b.direction player = 1 then some false else
          if to_point_color = some player.opposite ∧ to_point > from_point ∧
              b.direction player = -1 then some false else
          some true

/-- Model of `Board::make_move`.  Validation first; on failure the board is returned
untouched.  On success `points[from] -= direction`, then the hit test reads
the updated array exactly as the Rust code does. -/
def Board.make_move (b : Board) (player : Color) (from_point to_point : Nat) :
    Option (Except String Unit × Board) :=
  (b.can_move_piece player from_point to_point).bind fun ok =>
    if ok = false then some (Except.error "Invalid move", b) else
    (b.read from_point).bind fun from_val =>
      (b.write from_point (from_val - b.direction player)).bind fun b1 =>
        (b1.read to_point).bind fun to_val =>
          if to_val = -(b.direction player) then
            (b1.write to_point (b.direction player)).map fun b2 =>
              (Except.ok (),
                { b2 with
                  bar := Function.update b2.bar (b2.opposite_bar_index player)
                    (b2.bar (b2.opposite_bar_index player) + 1) })
          else
            (b1.write to_point (to_val + b.direction player)).map fun b2 =>
              (Except.ok (), b2)

/-- Model of `Board::get_index`: candidate destination for a piece; `usize`
subtraction saturates at 0, and a result at or past 24 is wrapped once by
subtracting 24. -/
def Board.get_index (_b : Board) (color : Color) (index : Nat) (dice_roll_value : Nat) :
    Nat :=
  let idx := match color with
    | Color.White => index + dice_roll_value
    | Color.Black => index - dice_roll_value
  if idx ≥ 24 then idx - 24 else idx

/-- Model of `Board::is_player_home_complete`.  All indices it reads are statically
below 24, so the array reads cannot fail; `(·.getD none)` extracts them. -/
def Board.is_player_home_complete (b : Board) (color : Color) : Bool :=
  let home_board := if color = Color.White then List.range' 18 6 else List.range' 0 6
  let home_of_same_color := home_board.all fun i =>
    let clr := (b.get_point_color i).getD none
    decide (clr = none ∨ clr = some color)
  let rest_of_board := if color = Color.White then List.range' 0 18 else List.range' 6 18
  let rest_of_board_is_empty := rest_of_board.all fun i =>
    let clr := (b.get_point_color i).getD none
    decide (clr = none ∨ clr ≠ some color)
  home_of_same_color && rest_of_board_is_empty

/-- Model of `Board::get_points_for_color`. -/
def Board.get_points_for_color (b : Board) (color : Color) : List Nat :=
  (List.range 24).filter fun i => (b.get_point_color i).getD none = some color

structure GameLogEntry where
  player : Color
  dice_rolls : List Nat

structure Game where
  board : Board
  dice_rolls : List Nat
  dice_rolled : Bool
  player : Color
  game_log : List GameLogEntry

/-- Model of `Game::new`: the standard opening layout with empty bar, White to move,
no dice rolled. -/
def Game.new : Game :=
  let layout : List Int :=
    [2, 0, 0, 0, 0, -5, 0, -3, 0, 0, 0, 5, -5, 0, 0, 0, 3, 0, 5, 0, 0, 0, 0, -2]
  { board := { points := fun i => layout.getD i.val 0, bar := fun _ => 0 }
    dice_rolls := []
    dice_rolled := false
    player := Color.White
    game_log := [] }

/-- Model of `Game::get_possible_moves`: cross product of the player's occupied
points with the dice values, filtered through `can_move_piece`.  The
destination always comes from `get_index`, whose result is below 24, so the
`can_move_piece` calls never reach an out-of-bounds read. -/
def Game.get_possible_moves (g : Game) (player : Color) (dice_rolls : List Nat) :
    List (Nat × Nat) :=
  (g.board.get_points_for_color player).foldr (fun index acc =>
    (dice_rolls.filterMap fun dice_roll =>
      let next_index := g.board.get_index player index dice_roll
      if g.board.can_move_piece player index next_index = some true then
        some (index, next_index)
      else none) ++ acc) []

/-- The dice-queue update of `event_dice_rolls_complete` (identical in
`src/events.rs` and `src/main.rs`): the rolled pair, extended by two more
copies of the first value on doubles. -/
def Game.apply_roll (g : Game) (d1 d2 : Nat) : Game :=
  let dice_rolls := if d1 = d2 then [d1, d2, d1, d1] else [d1, d2]
  { g with dice_rolls := dice_rolls }

/-- Model of `Game::switch_turn`. -/
def Game.switch_turn (g : Game) : Game :=
  { g with player := g.player.opposite, dice_rolled := false, dice_rolls := [] }

/-- Model of `Game::is_over`: half-board emptiness test over `points[0..18]` and
`points[6..24]`. -/
def Game.is_over (g : Game) : Bool :=
  let player1_borne_off := (List.range' 0 18).all fun i =>
    decide ((g.board.read i).getD 0 = 0)
  let player2_borne_off := (List.range' 6 18).all fun i =>
    decide ((g.board.read i).getD 0 = 0)
  player1_borne_off || player2_borne_off

/-- Model of `Game::get_winner`: White if `points[18..24]` is all empty, otherwise
Black if `points[0..6]` is all empty, otherwise no winner. -/
def Game.get_winner (g : Game) : Option Color :=
  if (List.range' 18 6).all fun i => decide ((g.board.read i).getD 0 = 0) then
    some Color.White
  else if (List.range' 0 6).all fun i => decide ((g.board.read i).getD 0 = 0) then
    some Color.Black
  else none

/-- A board built from a list of point values (empty bar); used for concrete
test positions. -/
def boardOfList (l : List Int) : Board :=
  { points := fun i => l.getD i.val 0, bar := fun _ => 0 }

/-- Number of checkers of a color on the track: the sum of the magnitudes of
the points carrying that color's sign. -/
def contrib (c : Color) (v : Int) : Int :=
  if colorOfVal v = some c then (v.natAbs : Int) else 0

def checkerCount (b : Board) (c : Color) : Int :=
  Finset.sum Finset.univ fun i : Fin 24 => contrib c (b.points i)

/-- Each color's own bar slot (`bar[0]` for White, `bar[1]` for Black),
i.e. `opposite_bar_index` of the opponent. -/
def barIndex (c : Color) : Fin 2 :=
  match c with
  | Color.White => 0
  | Color.Black => 1

/-- States reachable from `Game::new` by the core operations: successful
`make_move` calls, applying a rolled pair of dice, and switching the turn. -/
inductive Reachable : Game → Prop where
  | init : Reachable Game.new
  | move (g : Game) (player : Color) (f t : Nat) (b' : Board) :
      Reachable g → g.board.make_move player f t = some (Except.ok (), b') →
      Reachable { g with board := b' }
  | roll (g : Game) (d1 d2 : Nat) : Reachable g → Reachable (g.apply_roll d1 d2)
  | switch (g : Game) : Reachable g → Reachable g.switch_turn

/-- C1 concrete position: all fifteen White checkers stacked on point 20,
so White's home is complete. -/
def c1Board : Board :=
  boardOfList [0, 0, 0, 0, 0, 0, 0, 0, 0, 0, 0, 0, 0, 0, 0, 0, 0, 0, 0, 0, 15, 0, 0, 0]

/-- C5 concrete position: a lone White checker on index 22 and a lone Black
checker on index 23. -/
def c5Board : Board :=
  boardOfList [0, 0, 0, 0, 0, 0, 0, 0, 0, 0, 0, 0, 0, 0, 0, 0, 0, 0, 0, 0, 0, 0, 1, -1]

/-- C6 concrete position: two White checkers on index 10, a lone Black
checker on index 12. -/
def c6Board : Board :=
  boardOfList [0, 0, 0, 0, 0, 0, 0, 0, 0, 0, 2, 0, -1, 0, 0, 0, 0, 0, 0, 0, 0, 0, 0, 0]

/-- The board produced by `make_move(White, 10, 12)` on `c6Board`. -/
def c6BoardAfter : Board :=
  Board.mk
    (Function.update
      (Function.update c6Board.points ⟨10, by omega⟩
        (c6Board.points ⟨10, by omega⟩ - c6Board.direction Color.White))
      ⟨12, by omega⟩ (c6Board.direction Color.White))
    (Function.update c6Board.bar (c6Board.opposite_bar_index Color.White)
      (c6Board.bar (c6Board.opposite_bar_index Color.White) + 1))

/-- C3 state: one White and one Black checker, both inside 18–23. -/
def c3Board : Board :=
  boardOfList [0, 0, 0, 0, 0, 0, 0, 0, 0, 0, 0, 0, 0, 0, 0, 0, 0, 0, 1, -1, 0, 0, 0, 0]

def c3Game : Game := { Game.new with board := c3Board }

/-- C3 witness state: a single Black checker on index 0, no White
checkers. -/
def c3WitnessBoard : Board :=
  boardOfList [-1, 0, 0, 0, 0, 0, 0, 0, 0, 0, 0, 0, 0, 0, 0, 0, 0, 0, 0, 0, 0, 0, 0, 0]

def c3WitnessGame : Game := { Game.new with board := c3WitnessBoard }

/-- The spec's home zone: indices 18–23 for White, 0–5 for Black. -/
def homeZone (c : Color) : List Nat :=
  if c = Color.White then List.range' 18 6 else List.range' 0 6

/-- Spec-side definition, from the spec's words: "true iff every checker
of `color` on the track lies within that color's home zone". -/
def spec_home_complete (b : Board) (c : Color) : Bool :=
  (List.range 24).all fun i =>
    decide ((b.get_point_color i).getD none = some c → i ∈ homeZone c)

/-- The additional condition the code enforces: no opponent checker sits
inside `c`'s home zone. -/
def no_opponent_in_home (b : Board) (c : Color) : Bool :=
  (homeZone c).all fun i =>
    decide ((b.get_point_color i).getD none ≠ some c.opposite)

/-- C9 position: all White checkers inside 18–23, but a lone Black checker
also sits at 19. -/
def c9Board : Board :=
  boardOfList [0, 0, 0, 0, 0, 0, 0, 0, 0, 0, 0, 0, 0, 0, 0, 0, 0, 0, 3, -1, 0, 0, 0, 0]


/-! ### Basic facts about reads and the sign decoding -/

lemma Board.read_of_lt (b : Board) (i : Nat) (h : i < 24) :
    b.read i = some (b.points ⟨i, h⟩) := by
  simp [Board.read, h]

lemma Board.read_of_ge (b : Board) (i : Nat) (h : 24 ≤ i) :
    b.read i = none := by
  simp [Board.read]; omega

lemma Board.read_getD_of_lt (b : Board) (i : Nat) (h : i < 24) :
    (b.read i).getD 0 = b.points ⟨i, h⟩ := by
  simp [Board.read_of_lt b i h]

lemma Board.get_point_color_of_lt (b : Board) (i : Nat) (h : i < 24) :
    b.get_point_color i = some (colorOfVal (b.points ⟨i, h⟩)) := by
  simp [Board.get_point_color, Board.read_of_lt b i h]

lemma Board.color_getD_of_lt (b : Board) (i : Nat) (h : i < 24) :
    (b.get_point_color i).getD none = colorOfVal (b.points ⟨i, h⟩) := by
  simp [Board.get_point_color_of_lt b i h]

lemma colorOfVal_of_pos {v : Int} (h : 0 < v) : colorOfVal v = some Color.White := by
  unfold colorOfVal
  split_ifs <;> first | rfl | omega

lemma colorOfVal_of_neg {v : Int} (h : v < 0) : colorOfVal v = some Color.Black := by
  unfold colorOfVal
  split_ifs <;> first | rfl | omega

lemma pos_of_colorOfVal_white {v : Int} (h : colorOfVal v = some Color.White) : 0 < v := by
  unfold colorOfVal at h
  split_ifs at h <;> simp_all

lemma neg_of_colorOfVal_black {v : Int} (h : colorOfVal v = some Color.Black) : v < 0 := by
  unfold colorOfVal at h
  split_ifs at h <;> simp_all
  omega

lemma ne_zero_of_colorOfVal_some {v : Int} {c : Color} (h : colorOfVal v = some c) :
    v ≠ 0 := by
  intro h0; rw [h0] at h; simp [colorOfVal] at h

/-! ### Characterizing `can_move_piece` -/

lemma can_move_piece_bounds (b : Board) (p : Color) (f t : Nat)
    (h : b.can_move_piece p f t = some true) : f < 24 ∧ t < 24 := by
  by_cases hf : f < 24
  · by_cases ht : t < 24
    · exact ⟨hf, ht⟩
    · exfalso
      have hrt : b.read t = none := Board.read_of_ge b t (by omega)
      simp only [Board.can_move_piece, Board.get_point_count, Board.get_point_color,
        Board.read_of_lt b f hf, hrt, Option.map_some', Option.map_none', Option.some_bind,
        Option.none_bind] at h
      split_ifs at h <;> simp_all
  · exfalso
    have hrf : b.read f = none := Board.read_of_ge b f (by omega)
    simp [Board.can_move_piece, Board.get_point_count, hrf] at h

lemma can_move_piece_true_iff (b : Board) (p : Color) (f t : Nat)
    (hf : f < 24) (ht : t < 24) :
    b.can_move_piece p f t = some true ↔
      ((b.points ⟨f, hf⟩).natAbs ≠ 0 ∧
       colorOfVal (b.points ⟨f, hf⟩) = some p ∧
       ¬(colorOfVal (b.points ⟨t, ht⟩) = some p.opposite ∧
          (b.points ⟨t, ht⟩).natAbs > 1) ∧
       ¬(t ≥ 24 ∨ t = 0 ∨ t = 23) ∧
       ¬(colorOfVal (b.points ⟨t, ht⟩) = some p.opposite ∧ t < f ∧
          b.direction p = 1) ∧
       ¬(colorOfVal (b.points ⟨t, ht⟩) = some p.opposite ∧ t > f ∧
          b.direction p = -1)) := by
  simp only [Board.can_move_piece, Board.get_point_count, Board.get_point_color,
    Board.read_of_lt b f hf, Board.read_of_lt b t ht, Option.map_some', Option.some_bind]
  split_ifs <;> simp_all

lemma can_move_piece_isSome (b : Board) (p : Color) (f t : Nat)
    (hf : f < 24) (ht : t < 24) : b.can_move_piece p f t ≠ none := by
  simp only [Board.can_move_piece, Board.get_point_count, Board.get_point_color,
    Board.read_of_lt b f hf, Board.read_of_lt b t ht, Option.map_some', Option.some_bind]
  split_ifs <;> simp

/-- C1 is false on the code: with White's home complete and a White checker
on point 20, `can_move_piece(White, 20, 24)` does not return `true` — it
reads `points[24]` before its range test and panics (modelled as `none`). -/
theorem c1_counterexample :
    c1Board.is_player_home_complete Color.White = true ∧
    c1Board.get_point_color 20 = some (some Color.White) ∧
    c1Board.can_move_piece Color.White 20 24 = none := by
  refine ⟨by decide, by decide, by decide⟩

/-- C1 amended: `can_move_piece` never accepts a bear-off.  Whenever the
origin holds the moving player's checker and the destination is at or past
the board edge (`to ≥ 24`; `to < 0` is unrepresentable in `usize`), the
read of `points[to_point]` happens before the `to_point >= 24` range test
and is out of bounds — a panic, regardless of `is_player_home_complete`. -/
theorem c1_theorem (b : Board) (p : Color) (f t : Nat) (hf : f < 24)
    (hown : b.get_point_color f = some (some p)) (ht : 24 ≤ t) :
    b.can_move_piece p f t = none := by
  rw [Board.get_point_color_of_lt b f hf] at hown
  have hown' : colorOfVal (b.points ⟨f, hf⟩) = some p := by
    simpa using hown
  have hnz : (b.points ⟨f, hf⟩).natAbs ≠ 0 := by
    have := ne_zero_of_colorOfVal_some hown'
    simpa [Int.natAbs_eq_zero] using this
  have hrt : b.read t = none := Board.read_of_ge b t ht
  simp [Board.can_move_piece, Board.get_point_count, Board.get_point_color,
    Board.read_of_lt b f hf, hrt, hnz, hown']

/-- Witness for the amended C1 at the concrete bear-off attempt. -/
theorem c1_witness : c1Board.can_move_piece Color.White 20 24 = none :=
  c1_theorem c1Board Color.White 20 24 (by decide) (by decide) (by decide)

/-- C4 is false on the code: `get_index` wraps a White destination at or
past 24 back onto the board instead of returning `from + pips`. -/
theorem c4_counterexample :
    Game.new.board.get_index Color.White 20 6 = 2 ∧
    Game.new.board.get_index Color.White 20 6 ≠ 20 + 6 := by
  refine ⟨by decide, by decide⟩

/-- C4 amended: for an origin below 24 and a die value 1–6, `get_index`
returns `(from + pips) % 24` for White (wrapped once past the edge, never
an out-of-range bear-off signal) and the saturating `from - pips` for
Black (clamped at 0, never negative). -/
theorem c4_theorem (b : Board) (index pips : Nat) (h1 : index < 24)
    (h2 : 1 ≤ pips) (h3 : pips ≤ 6) :
    b.get_index Color.White index pips = (index + pips) % 24 ∧
    b.get_index Color.Black index pips = index - pips := by
  unfold Board.get_index
  refine ⟨?_, ?_⟩
  · show (if index + pips ≥ 24 then index + pips - 24 else index + pips) = (index + pips) % 24
    split_ifs <;> omega
  · show (if index - pips ≥ 24 then index - pips - 24 else index - pips) = index - pips
    split_ifs <;> omega

/-- Witness for the amended C4 at the wrap point and at Black saturation. -/
theorem c4_witness :
    Game.new.board.get_index Color.White 20 6 = (20 + 6) % 24 ∧
    Game.new.board.get_index Color.Black 20 6 = 20 - 6 :=
  c4_theorem Game.new.board 20 6 (by decide) (by decide) (by decide)

/-- C5 is false on the code: `can_move_piece` rejects destination 23
outright, so the spec's scenario `makeMove(White, 22, 23)` fails with
`InvalidMove` instead of hitting. -/
theorem c5_counterexample :
    c5Board.can_move_piece Color.White 22 23 = some false ∧
    c5Board.make_move Color.White 22 23 = some (Except.error "Invalid move", c5Board) :=
  ⟨by decide, rfl⟩

/-- C5 amended: once the origin-ownership, blocking and directional checks
pass and the destination is on the track, `can_move_piece` accepts exactly
the destinations 1–22: indices 0 and 23 are rejected alongside the
out-of-range ones. -/
theorem c5_theorem (b : Board) (p : Color) (f t : Nat) (hf : f < 24) (ht : t < 24)
    (hown : colorOfVal (b.points ⟨f, hf⟩) = some p)
    (hblock : ¬(colorOfVal (b.points ⟨t, ht⟩) = some p.opposite ∧
        (b.points ⟨t, ht⟩).natAbs > 1))
    (hdir1 : ¬(colorOfVal (b.points ⟨t, ht⟩) = some p.opposite ∧ t < f ∧
        b.direction p = 1))
    (hdir2 : ¬(colorOfVal (b.points ⟨t, ht⟩) = some p.opposite ∧ t > f ∧
        b.direction p = -1)) :
    b.can_move_piece p f t = some true ↔ (1 ≤ t ∧ t ≤ 22) := by
  rw [can_move_piece_true_iff b p f t hf ht]
  have hnz : (b.points ⟨f, hf⟩).natAbs ≠ 0 := by
    have := ne_zero_of_colorOfVal_some hown
    simpa [Int.natAbs_eq_zero] using this
  constructor
  · rintro ⟨-, -, -, hrange, -, -⟩
    omega
  · intro hrange
    exact ⟨hnz, hown, hblock, by omega, hdir1, hdir2⟩

/-- Witness for the amended C5: the opening move 0 → 2 for White. -/
theorem c5_witness :
    Game.new.board.can_move_piece Color.White 0 2 = some true ↔ (1 ≤ 2 ∧ 2 ≤ 22) :=
  c5_theorem Game.new.board Color.White 0 2 (by decide) (by decide) (by decide)
    (by decide) (by decide) (by decide)

/-- C7: `make_move` re-validates through `can_move_piece`, and whenever
validation fails it returns `InvalidMove` together with the board exactly
as it was — the mutation code is never reached. -/
theorem c7_theorem (b : Board) (p : Color) (f t : Nat)
    (h : b.can_move_piece p f t = some false) :
    b.make_move p f t = some (Except.error "Invalid move", b) := by
  simp [Board.make_move, h]

/-- Witness for C7: moving from the empty point 1 on the opening board. -/
theorem c7_witness :
    Game.new.board.make_move Color.White 1 2
      = some (Except.error "Invalid move", Game.new.board) :=
  c7_theorem Game.new.board Color.White 1 2 (by decide)

/-- C8: applying a rolled pair queues `[d1, d2]`, or four copies of the
value on doubles. -/
theorem c8_theorem (g : Game) (d1 d2 : Nat) :
    (g.apply_roll d1 d2).dice_rolls = if d1 = d2 then [d1, d1, d1, d1] else [d1, d2] := by
  simp only [Game.apply_roll]
  split_ifs with h
  · subst h; rfl
  · rfl

/-- C10: within the move-enumeration path every index handed to
`can_move_piece` is on the track: `get_index` keeps the destination below
24 for any origin below 24 and die value at most 6, origins produced by
`get_points_for_color` are below 24, and `can_move_piece` performs no
out-of-bounds read (never `none`) on such arguments. -/
theorem c10_theorem (b : Board) (c : Color) (index pips : Nat)
    (h1 : index < 24) (h2 : pips ≤ 6) :
    b.get_index c index pips < 24 ∧
    b.can_move_piece c index (b.get_index c index pips) ≠ none ∧
    ∀ i ∈ b.get_points_for_color c, i < 24 := by
  have hidx : b.get_index c index pips < 24 := by
    unfold Board.get_index
    cases c
    · show (if index + pips ≥ 24 then index + pips - 24 else index + pips) < 24
      split_ifs <;> omega
    · show (if index - pips ≥ 24 then index - pips - 24 else index - pips) < 24
      split_ifs <;> omega
  refine ⟨hidx, can_move_piece_isSome b c index _ h1 hidx, ?_⟩
  intro i hi
  have := List.mem_range.mp (List.mem_filter.mp hi).1
  exact this

/-- Witness for C10 at a concrete origin and die value on the opening
board. -/
theorem c10_witness :
    Game.new.board.get_index Color.White 23 6 < 24 ∧
    Game.new.board.can_move_piece Color.White 23
      (Game.new.board.get_index Color.White 23 6) ≠ none ∧
    ∀ i ∈ Game.new.board.get_points_for_color Color.White, i < 24 :=
  c10_theorem Game.new.board Color.White 23 6 (by decide) (by decide)

/-! ### Dissecting a successful `make_move` -/

lemma make_move_ok_elim (b : Board) (p : Color) (f t : Nat) (b' : Board)
    (h : b.make_move p f t = some (Except.ok (), b')) :
    ∃ (hf : f < 24) (ht : t < 24),
      b.can_move_piece p f t = some true ∧
      (((Function.update b.points ⟨f, hf⟩ (b.points ⟨f, hf⟩ - b.direction p)) ⟨t, ht⟩
          = -(b.direction p) ∧
        b'.points = Function.update
          (Function.update b.points ⟨f, hf⟩ (b.points ⟨f, hf⟩ - b.direction p))
          ⟨t, ht⟩ (b.direction p) ∧
        b'.bar = Function.update b.bar (b.opposite_bar_index p)
          (b.bar (b.opposite_bar_index p) + 1)) ∨
       ((Function.update b.points ⟨f, hf⟩ (b.points ⟨f, hf⟩ - b.direction p)) ⟨t, ht⟩
          ≠ -(b.direction p) ∧
        b'.points = Function.update
          (Function.update b.points ⟨f, hf⟩ (b.points ⟨f, hf⟩ - b.direction p))
          ⟨t, ht⟩
          ((Function.update b.points ⟨f, hf⟩ (b.points ⟨f, hf⟩ - b.direction p)) ⟨t, ht⟩
            + b.direction p) ∧
        b'.bar = b.bar)) := by
  have hcan : b.can_move_piece p f t = some true := by
    cases hc : b.can_move_piece p f t with
    | none => simp [Board.make_move, hc] at h
    | some ok =>
      cases ok with
      | false => simp [Board.make_move, hc] at h
      | true => rfl
  obtain ⟨hf, ht⟩ := can_move_piece_bounds b p f t hcan
  refine ⟨hf, ht, hcan, ?_⟩
  have hb1 : b.write f (b.points ⟨f, hf⟩ - b.direction p)
      = some (Board.mk
          (Function.update b.points ⟨f, hf⟩ (b.points ⟨f, hf⟩ - b.direction p)) b.bar) := by
    simp [Board.write, hf]
  have hb1r : (Board.mk
      (Function.update b.points ⟨f, hf⟩ (b.points ⟨f, hf⟩ - b.direction p)) b.bar).read t
      = some ((Function.update b.points ⟨f, hf⟩ (b.points ⟨f, hf⟩ - b.direction p)) ⟨t, ht⟩) := by
    simp [Board.read, ht]
  rw [Board.make_move, hcan, Option.some_bind, if_neg (by simp : ¬(true = false)),
    Board.read_of_lt b f hf, Option.some_bind, hb1, Option.some_bind, hb1r,
    Option.some_bind] at h
  by_cases hhit :
      (Function.update b.points ⟨f, hf⟩ (b.points ⟨f, hf⟩ - b.direction p)) ⟨t, ht⟩
        = -(b.direction p)
  · left
    rw [if_pos hhit] at h
    have hb2 : (Board.mk
        (Function.update b.points ⟨f, hf⟩ (b.points ⟨f, hf⟩ - b.direction p)) b.bar).write t
        (b.direction p)
        = some (Board.mk (Function.update
            (Function.update b.points ⟨f, hf⟩ (b.points ⟨f, hf⟩ - b.direction p))
            ⟨t, ht⟩ (b.direction p)) b.bar) := by
      simp [Board.write, ht]
    rw [hb2] at h
    simp only [Option.map_some', Option.some.injEq, Prod.mk.injEq] at h
    refine ⟨hhit, ?_, ?_⟩
    · rw [← h.2]
    · rw [← h.2]
      rfl
  · right
    rw [if_neg hhit] at h
    have hb2 : (Board.mk
        (Function.update b.points ⟨f, hf⟩ (b.points ⟨f, hf⟩ - b.direction p)) b.bar).write t
        ((Function.update b.points ⟨f, hf⟩ (b.points ⟨f, hf⟩ - b.direction p)) ⟨t, ht⟩
          + b.direction p)
        = some (Board.mk (Function.update
            (Function.update b.points ⟨f, hf⟩ (b.points ⟨f, hf⟩ - b.direction p))
            ⟨t, ht⟩
            ((Function.update b.points ⟨f, hf⟩ (b.points ⟨f, hf⟩ - b.direction p)) ⟨t, ht⟩
              + b.direction p)) b.bar) := by
      simp [Board.write, ht]
    rw [hb2] at h
    simp only [Option.map_some', Option.some.injEq, Prod.mk.injEq] at h
    refine ⟨hhit, ?_, ?_⟩
    · rw [← h.2]
    · rw [← h.2]

lemma Board.get_point_count_of_lt (b : Board) (i : Nat) (h : i < 24) :
    b.get_point_count i = some ((b.points ⟨i, h⟩).natAbs) := by
  simp [Board.get_point_count, Board.read_of_lt b i h]

/-- C6: when a successful `make_move` lands on a point that held exactly
one opposing checker, the point flips to the mover with count 1 and the
opponent's bar counter grows by exactly one. -/
theorem c6_theorem (b : Board) (p : Color) (f t : Nat) (b' : Board)
    (hmv : b.make_move p f t = some (Except.ok (), b'))
    (hcolor : b.get_point_color t = some (some p.opposite))
    (hcount : b.get_point_count t = some 1) :
    b'.get_point_color t = some (some p) ∧
    b'.get_point_count t = some 1 ∧
    b'.bar (b.opposite_bar_index p) = b.bar (b.opposite_bar_index p) + 1 := by
  obtain ⟨hf, ht, hcan, hbranch⟩ := make_move_ok_elim b p f t b' hmv
  obtain ⟨hnz, hown, -, -, -, -⟩ := (can_move_piece_true_iff b p f t hf ht).mp hcan
  rw [Board.get_point_color_of_lt b t ht] at hcolor
  have hcolor' : colorOfVal (b.points ⟨t, ht⟩) = some p.opposite := by
    simpa using hcolor
  rw [Board.get_point_count_of_lt b t ht] at hcount
  have hcnt1 : (b.points ⟨t, ht⟩).natAbs = 1 := by simpa using hcount
  have hvt : b.points ⟨t, ht⟩ = -(b.direction p) := by
    cases p
    · have hneg := neg_of_colorOfVal_black (by simpa [Color.opposite] using hcolor')
      rw [show b.direction Color.White = 1 from rfl]
      omega
    · have hpos := pos_of_colorOfVal_white (by simpa [Color.opposite] using hcolor')
      rw [show b.direction Color.Black = -1 from rfl]
      omega
  have hft : (⟨f, hf⟩ : Fin 24) ≠ ⟨t, ht⟩ := by
    intro he
    rw [he, hcolor'] at hown
    have : p.opposite = p := by simpa using hown
    cases p <;> simp [Color.opposite] at this
  rcases hbranch with ⟨-, hpts, hbar⟩ | ⟨hnh, -, -⟩
  · have h1 : b'.points ⟨t, ht⟩ = b.direction p := by
      rw [hpts]; exact Function.update_same _ _ _
    refine ⟨?_, ?_, ?_⟩
    · rw [Board.get_point_color_of_lt b' t ht, h1]
      cases p <;> rfl
    · rw [Board.get_point_count_of_lt b' t ht, h1]
      cases p <;> rfl
    · rw [hbar, Function.update_same]
  · exfalso
    apply hnh
    rw [Function.update_noteq (Ne.symm hft)]
    exact hvt

/-- Witness for C6: White hits the lone Black checker on index 12. -/
theorem c6_witness :
    c6BoardAfter.get_point_color 12 = some (some Color.White) ∧
    c6BoardAfter.get_point_count 12 = some 1 ∧
    c6BoardAfter.bar (c6Board.opposite_bar_index Color.White)
      = c6Board.bar (c6Board.opposite_bar_index Color.White) + 1 :=
  c6_theorem c6Board Color.White 10 12 c6BoardAfter rfl (by decide) (by decide)

/-! ### Checker conservation -/

lemma contrib_white (v : Int) : contrib Color.White v = max v 0 := by
  unfold contrib colorOfVal
  split_ifs <;> first | omega | simp_all

lemma contrib_black (v : Int) : contrib Color.Black v = max (-v) 0 := by
  unfold contrib colorOfVal
  split_ifs <;> first | omega | simp_all

lemma sum_contrib_update (pts : Fin 24 → Int) (i : Fin 24) (a : Int) (c : Color) :
    (Finset.sum Finset.univ fun j => contrib c (Function.update pts i a j))
      = (Finset.sum Finset.univ fun j => contrib c (pts j))
        - contrib c (pts i) + contrib c a := by
  have hcomp : (fun j => contrib c (Function.update pts i a j))
      = Function.update (fun j => contrib c (pts j)) i (contrib c a) := by
    funext j
    by_cases hj : j = i
    · subst hj; simp
    · simp [Function.update_noteq hj]
  rw [hcomp, Finset.sum_update_of_mem (Finset.mem_univ i),
    Finset.sum_eq_sum_diff_singleton_add (Finset.mem_univ i)
      (fun j => contrib c (pts j))]
  ring

lemma conservation_step (b b' : Board) (p : Color) (f t : Nat)
    (h : b.make_move p f t = some (Except.ok (), b')) (c : Color) :
    checkerCount b' c + b'.bar (barIndex c)
      = checkerCount b c + b.bar (barIndex c) := by
  obtain ⟨hf, ht, hcan, hbranch⟩ := make_move_ok_elim b p f t b' h
  obtain ⟨hnz, hown, hblock, -, -, -⟩ := (can_move_piece_true_iff b p f t hf ht).mp hcan
  by_cases hft : (⟨f, hf⟩ : Fin 24) = (⟨t, ht⟩ : Fin 24)
  · rcases hbranch with ⟨hh, hpts, hbar⟩ | ⟨hnh, hpts, hbar⟩
    · exfalso
      rw [← hft, Function.update_same] at hh
      refine ne_zero_of_colorOfVal_some hown ?_
      have hd : b.direction p = 1 ∨ b.direction p = -1 := by
        cases p
        · exact Or.inl rfl
        · exact Or.inr rfl
      rcases hd with hd | hd <;> rw [hd] at hh <;> omega
    · have hpts' : b'.points = b.points := by
        rw [hpts, ← hft, Function.update_same,
          show b.points ⟨f, hf⟩ - b.direction p + b.direction p
            = b.points ⟨f, hf⟩ from by ring,
          Function.update_idem, Function.update_eq_self]
      rw [checkerCount, checkerCount, hpts', hbar]
  · have htf : (⟨t, ht⟩ : Fin 24) ≠ (⟨f, hf⟩ : Fin 24) := Ne.symm hft
    have hP1t : (Function.update b.points ⟨f, hf⟩
        (b.points ⟨f, hf⟩ - b.direction p)) ⟨t, ht⟩ = b.points ⟨t, ht⟩ :=
      Function.update_noteq htf _ _
    rcases hbranch with ⟨hh, hpts, hbar⟩ | ⟨hnh, hpts, hbar⟩
    · rw [hP1t] at hh
      rw [checkerCount, checkerCount, hpts, sum_contrib_update, sum_contrib_update,
        hP1t, hh, hbar]
      cases p
      · have hv := pos_of_colorOfVal_white hown
        rw [show b.direction Color.White = 1 from rfl,
          show b.opposite_bar_index Color.White = (1 : Fin 2) from rfl]
        cases c
        · rw [show barIndex Color.White = (0 : Fin 2) from rfl,
            Function.update_noteq (by decide)]
          simp only [contrib_white]
          omega
        · rw [show barIndex Color.Black = (1 : Fin 2) from rfl, Function.update_same]
          simp only [contrib_black]
          omega
      · have hv := neg_of_colorOfVal_black hown
        rw [show b.direction Color.Black = -1 from rfl,
          show b.opposite_bar_index Color.Black = (0 : Fin 2) from rfl]
        cases c
        · rw [show barIndex Color.White = (0 : Fin 2) from rfl, Function.update_same]
          simp only [contrib_white]
          omega
        · rw [show barIndex Color.Black = (1 : Fin 2) from rfl,
            Function.update_noteq (by decide)]
          simp only [contrib_black]
          omega
    · rw [hP1t] at hnh
      rw [checkerCount, checkerCount, hpts, sum_contrib_update, sum_contrib_update,
        hP1t, hbar]
      cases p
      · have hv := pos_of_colorOfVal_white hown
        rw [show b.direction Color.White = 1 from rfl] at hnh ⊢
        have hvt0 : 0 ≤ b.points ⟨t, ht⟩ := by
          by_contra hneg
          push_neg at hneg
          have hcb := colorOfVal_of_neg hneg
          have hble : ¬(1 < (b.points ⟨t, ht⟩).natAbs) := fun hgt => hblock ⟨hcb, hgt⟩
          omega
        cases c
        · simp only [contrib_white]
          omega
        · simp only [contrib_black]
          omega
      · have hv := neg_of_colorOfVal_black hown
        rw [show b.direction Color.Black = -1 from rfl] at hnh ⊢
        have hvt0 : b.points ⟨t, ht⟩ ≤ 0 := by
          by_contra hpos
          push_neg at hpos
          have hcw := colorOfVal_of_pos hpos
          have hble : ¬(1 < (b.points ⟨t, ht⟩).natAbs) := fun hgt => hblock ⟨hcw, hgt⟩
          omega
        cases c
        · simp only [contrib_white]
          omega
        · simp only [contrib_black]
          omega

/-- C2: along every state reachable from `Game::new` by successful moves,
roll applications and turn switches, each color's on-track checkers plus
its bar count stay at 15 (no bear-off path exists, so the implicit
borne-off count stays 0). -/
theorem c2_theorem (g : Game) (h : Reachable g) (c : Color) :
    checkerCount g.board c + g.board.bar (barIndex c) = 15 := by
  induction h with
  | init => cases c <;> decide
  | move g player f t b' hr hmv ih =>
    have hstep := conservation_step g.board b' player f t hmv c
    exact hstep.trans ih
  | roll g d1 d2 hr ih => exact ih
  | switch g hr ih => exact ih

/-- Witness for C2 at the initial state. -/
theorem c2_witness :
    checkerCount Game.new.board Color.White
      + Game.new.board.bar (barIndex Color.White) = 15 :=
  c2_theorem Game.new Reachable.init Color.White

/-! ### Win detection -/

lemma contrib_nonneg (c : Color) (v : Int) : 0 ≤ contrib c v := by
  cases c
  · rw [contrib_white]; omega
  · rw [contrib_black]; omega

lemma checkerCount_zero_elim (b : Board) (c : Color)
    (h : checkerCount b c = 0) (i : Fin 24) : contrib c (b.points i) = 0 :=
  (Finset.sum_eq_zero_iff_of_nonneg fun j _ => contrib_nonneg c (b.points j)).mp h i
    (Finset.mem_univ i)

/-- C3 is false on the code: `is_over` only checks half-board emptiness, so
it reports the game over in a state where both colors still have a checker
on the track. -/
theorem c3_counterexample :
    1 ≤ checkerCount c3Game.board Color.White ∧
    1 ≤ checkerCount c3Game.board Color.Black ∧
    c3Game.is_over = true :=
  ⟨by decide, by decide, by decide⟩

/-- C3 amended: `is_over` is the half-board emptiness test, which can fire
while both colors still have checkers; but when one color has zero checkers
on the track, the other color still has at least one, and all of the other
color's checkers sit in its own home zone, `is_over` is true and
`get_winner` names the color with zero checkers left. -/
theorem c3_theorem (g : Game) (c : Color)
    (hzero : checkerCount g.board c = 0)
    (hhome : g.board.is_player_home_complete c.opposite = true)
    (hone : 1 ≤ checkerCount g.board c.opposite) :
    g.is_over = true ∧ g.get_winner = some c := by
  cases c
  · -- White has no checkers; Black is home-complete in 0..5
    have hWle : ∀ i : Fin 24, g.board.points i ≤ 0 := by
      intro i
      have := checkerCount_zero_elim g.board Color.White hzero i
      rw [contrib_white] at this
      omega
    have h2 : g.board.is_player_home_complete Color.Black = true := hhome
    simp only [Board.is_player_home_complete, Bool.and_eq_true, List.all_eq_true,
      decide_eq_true_eq, reduceIte] at h2
    have hB : ∀ (i : Nat) (hi : i < 24), 6 ≤ i →
        colorOfVal (g.board.points ⟨i, hi⟩) ≠ some Color.Black := by
      intro i hi h6
      have hmem : i ∈ List.range' 6 18 := by rw [List.mem_range'_1]; omega
      have hdis := h2.2 i hmem
      rw [Board.color_getD_of_lt g.board i hi] at hdis
      rcases hdis with hnone | hne
      · rw [hnone]; simp
      · exact hne
    have hzero6 : ∀ (i : Nat) (hi : i < 24), 6 ≤ i → g.board.points ⟨i, hi⟩ = 0 := by
      intro i hi h6
      rcases lt_trichotomy (g.board.points ⟨i, hi⟩) 0 with hlt | heq | hgt
      · exact absurd (colorOfVal_of_neg hlt) (hB i hi h6)
      · exact heq
      · exact absurd hgt (by have := hWle ⟨i, hi⟩; omega)
    constructor
    · simp only [Game.is_over, Bool.or_eq_true, List.all_eq_true, decide_eq_true_eq]
      right
      intro i hmem
      rw [List.mem_range'_1] at hmem
      have hi : i < 24 := by omega
      rw [Board.read_getD_of_lt g.board i hi]
      exact hzero6 i hi (by omega)
    · have hall : ((List.range' 18 6).all fun i =>
          decide ((g.board.read i).getD 0 = 0)) = true := by
        rw [List.all_eq_true]
        intro i hmem
        rw [List.mem_range'_1] at hmem
        have hi : i < 24 := by omega
        rw [decide_eq_true_eq, Board.read_getD_of_lt g.board i hi]
        exact hzero6 i hi (by omega)
      rw [Game.get_winner, if_pos hall]
  · -- Black has no checkers; White is home-complete in 18..23
    have hBge : ∀ i : Fin 24, 0 ≤ g.board.points i := by
      intro i
      have := checkerCount_zero_elim g.board Color.Black hzero i
      rw [contrib_black] at this
      omega
    have h2 : g.board.is_player_home_complete Color.White = true := hhome
    simp only [Board.is_player_home_complete, Bool.and_eq_true, List.all_eq_true,
      decide_eq_true_eq, reduceIte] at h2
    have hW : ∀ (i : Nat) (hi : i < 24), i < 18 →
        colorOfVal (g.board.points ⟨i, hi⟩) ≠ some Color.White := by
      intro i hi h18
      have hmem : i ∈ List.range' 0 18 := by rw [List.mem_range'_1]; omega
      have hdis := h2.2 i hmem
      rw [Board.color_getD_of_lt g.board i hi] at hdis
      rcases hdis with hnone | hne
      · rw [hnone]; simp
      · exact hne
    have hzero18 : ∀ (i : Nat) (hi : i < 24), i < 18 → g.board.points ⟨i, hi⟩ = 0 := by
      intro i hi h18
      rcases lt_trichotomy (g.board.points ⟨i, hi⟩) 0 with hlt | heq | hgt
      · exact absurd hlt (by have := hBge ⟨i, hi⟩; omega)
      · exact heq
      · exact absurd (colorOfVal_of_pos hgt) (hW i hi h18)
    have hone' : 1 ≤ checkerCount g.board Color.White := hone
    obtain ⟨i0, hpos⟩ : ∃ i : Fin 24, 0 < g.board.points i := by
      by_contra hnone
      push_neg at hnone
      have hz : checkerCount g.board Color.White = 0 := by
        refine Finset.sum_eq_zero fun i _ => ?_
        rw [contrib_white]
        have := hnone i
        omega
      omega
    have hi018 : 18 ≤ i0.val := by
      by_contra hlt
      push_neg at hlt
      have := hW i0.val i0.isLt hlt
      rw [Fin.eta] at this
      exact absurd (colorOfVal_of_pos hpos) this
    constructor
    · simp only [Game.is_over, Bool.or_eq_true, List.all_eq_true, decide_eq_true_eq]
      left
      intro i hmem
      rw [List.mem_range'_1] at hmem
      have hi : i < 24 := by omega
      rw [Board.read_getD_of_lt g.board i hi]
      exact hzero18 i hi (by omega)
    · rw [Game.get_winner]
      have hcond : ¬(((List.range' 18 6).all fun i =>
          decide ((g.board.read i).getD 0 = 0)) = true) := by
        intro hall
        rw [List.all_eq_true] at hall
        have hm : (i0 : Nat) ∈ List.range' 18 6 := by
          rw [List.mem_range'_1]
          have := i0.isLt
          omega
        have hz := hall _ hm
        rw [decide_eq_true_eq, Board.read_getD_of_lt g.board i0.val i0.isLt,
          Fin.eta] at hz
        omega
      rw [if_neg hcond]
      have hall2 : ((List.range' 0 6).all fun i =>
          decide ((g.board.read i).getD 0 = 0)) = true := by
        rw [List.all_eq_true]
        intro i hmem
        rw [List.mem_range'_1] at hmem
        have hi : i < 24 := by omega
        rw [decide_eq_true_eq, Board.read_getD_of_lt g.board i hi]
        exact hzero18 i hi (by omega)
      rw [if_pos hall2]

/-- Witness for the amended C3: White is out of checkers, Black's lone
checker is home, the game is over and White is the winner. -/
theorem c3_witness :
    c3WitnessGame.is_over = true ∧ c3WitnessGame.get_winner = some Color.White :=
  c3_theorem c3WitnessGame Color.White (by decide) (by decide) (by decide)

/-! ### Home-completeness versus the spec's description -/

/-- C9 is false on the code: every White checker lies in White's home zone,
yet `is_player_home_complete(White)` is `false` because a Black checker
occupies index 19. -/
theorem c9_counterexample :
    spec_home_complete c9Board Color.White = true ∧
    c9Board.is_player_home_complete Color.White = false :=
  ⟨by decide, by decide⟩

/-- C9 amended: `is_player_home_complete c` holds iff every checker of `c`
on the track lies in `c`'s home zone AND no opponent checker occupies that
home zone — opponent checkers inside the home zone do affect the result. -/
theorem c9_theorem (b : Board) (c : Color) :
    b.is_player_home_complete c
      = (spec_home_complete b c && no_opponent_in_home b c) := by
  refine Bool.eq_iff_iff.mpr ?_
  cases c
  · simp only [Board.is_player_home_complete, spec_home_complete, no_opponent_in_home,
      homeZone, reduceIte, Bool.and_eq_true, List.all_eq_true, decide_eq_true_eq]
    constructor
    · rintro ⟨h1, h2⟩
      refine ⟨?_, ?_⟩
      · intro i hi hw
        rw [List.mem_range] at hi
        rw [List.mem_range'_1]
        by_contra hni
        have h18 : i < 18 := by omega
        have hq := h2 i (by rw [List.mem_range'_1]; omega)
        rcases hq with hn | hne
        · rw [hn] at hw; cases hw
        · exact hne hw
      · intro i hi
        have hp := h1 i hi
        rcases hp with hn | hw
        · rw [hn]; simp
        · rw [hw]
          simp [Color.opposite]
    · rintro ⟨h1, h2⟩
      refine ⟨?_, ?_⟩
      · intro i hi
        rcases hcl : (b.get_point_color i).getD none with _ | cc
        · exact Or.inl rfl
        · cases cc
          · exact Or.inr rfl
          · exact absurd hcl (by simpa [Color.opposite] using h2 i hi)
      · intro i hi
        rw [List.mem_range'_1] at hi
        rcases hcl : (b.get_point_color i).getD none with _ | cc
        · exact Or.inl rfl
        · cases cc
          · exfalso
            have hmem24 : i ∈ List.range 24 := by rw [List.mem_range]; omega
            have hin := h1 i hmem24 hcl
            rw [List.mem_range'_1] at hin
            omega
          · refine Or.inr ?_
            intro hEq
            cases hEq
  · simp only [Board.is_player_home_complete, spec_home_complete, no_opponent_in_home,
      homeZone, Bool.and_eq_true, List.all_eq_true, decide_eq_true_eq,
      show (if Color.Black = Color.White then List.range' 18 6 else List.range' 0 6)
        = List.range' 0 6 from rfl,
      show (if Color.Black = Color.White then List.range' 0 18 else List.range' 6 18)
        = List.range' 6 18 from rfl]
    constructor
    · rintro ⟨h1, h2⟩
      refine ⟨?_, ?_⟩
      · intro i hi hw
        rw [List.mem_range] at hi
        rw [List.mem_range'_1]
        by_contra hni
        have h6 : 6 ≤ i := by omega
        have hq := h2 i (by rw [List.mem_range'_1]; omega)
        rcases hq with hn | hne
        · rw [hn] at hw; cases hw
        · exact hne hw
      · intro i hi
        have hp := h1 i hi
        rcases hp with hn | hw
        · rw [hn]; simp
        · rw [hw]
          simp [Color.opposite]
    · rintro ⟨h1, h2⟩
      refine ⟨?_, ?_⟩
      · intro i hi
        rcases hcl : (b.get_point_color i).getD none with _ | cc
        · exact Or.inl rfl
        · cases cc
          · exact absurd hcl (by simpa [Color.opposite] using h2 i hi)
          · exact Or.inr rfl
      · intro i hi
        rw [List.mem_range'_1] at hi
        rcases hcl : (b.get_point_color i).getD none with _ | cc
        · exact Or.inl rfl
        · cases cc
          · refine Or.inr ?_
            intro hEq
            cases hEq
          · exfalso
            have hmem24 : i ∈ List.range 24 := by rw [List.mem_range]; omega
            have hin := h1 i hmem24 hcl
            rw [List.mem_range'_1] at hin
            omega
